import Mathlib

/-!
Shallow embedding of the `urid` crate (src/lib.rs and src/ulid.rs): a typed,
prefixed resource identifier `ResourceID` composed of a 4-character uppercase
resource tag and a 26-character ULID suffix.

Strings are modelled as `List Char` (Rust `&str` is a sequence of Unicode
scalar values); Rust's `str::len` is the UTF-8 byte length, modelled by
`utf8Len`.  Rust byte-slicing `&s[..4]`, which panics when the index is not a
character boundary, is modelled by `byteSplit`, returning `none` on a panic.
-/

/-- UTF-8 encoded size in bytes of one character, as Rust's `char::len_utf8`:
1 byte below U+0080, 2 below U+0800, 3 below U+10000, else 4. -/
def len_utf8 (c : Char) : Nat :=
  if c.toNat < 0x80 then 1
  else if c.toNat < 0x800 then 2
  else if c.toNat < 0x10000 then 3
  else 4

/-- Rust `str::len`: the UTF-8 byte length of a string. -/
def utf8Len : List Char → Nat
  | [] => 0
  | c :: cs => len_utf8 c + utf8Len cs

/-- Uppercase table modelling Rust `char::to_uppercase` (Unicode uppercase
mapping, possibly multi-character).  It covers all of ASCII plus the non-ASCII
code points exercised in this development: U+00DF ß → "SS" (Unicode special
casing), U+00E9 é → U+00C9 É, U+0131 ı → U+0049 I.  Code points outside the
table map to themselves. -/
def upperTable : List (Char × List Char) :=
  [('a', ['A']), ('b', ['B']), ('c', ['C']), ('d', ['D']), ('e', ['E']),
   ('f', ['F']), ('g', ['G']), ('h', ['H']), ('i', ['I']), ('j', ['J']),
   ('k', ['K']), ('l', ['L']), ('m', ['M']), ('n', ['N']), ('o', ['O']),
   ('p', ['P']), ('q', ['Q']), ('r', ['R']), ('s', ['S']), ('t', ['T']),
   ('u', ['U']), ('v', ['V']), ('w', ['W']), ('x', ['X']), ('y', ['Y']),
   ('z', ['Z']), ('ß', ['S', 'S']), ('é', ['É']), ('ı', ['I'])]

/-- Rust `char::to_uppercase`, restricted to the code points in `upperTable`
(identity elsewhere). -/
def charToUppercase (c : Char) : List Char :=
  match upperTable.find? (fun p => p.1 == c) with
  | some p => p.2
  | none => [c]

/-- Rust `str::to_uppercase`: concatenation of the per-character uppercase
mappings. -/
def toUppercase : List Char → List Char
  | [] => []
  | c :: cs => charToUppercase c ++ toUppercase cs

/-- Rust byte-slicing `(&s[..n], &s[n..])`: splits a string at byte offset
`n`; `none` models the panic when `n` is out of bounds or not a character
boundary. -/
def byteSplit : Nat → List Char → Option (List Char × List Char)
  | 0, s => some ([], s)
  | _ + 1, [] => none
  | n + 1, c :: rest =>
    if len_utf8 c ≤ n + 1 then
      match byteSplit (n + 1 - len_utf8 c) rest with
      | some (a, b) => some (c :: a, b)
      | none => none
    else none

/-- Rust `Result<T, E>`. -/
inductive Result (T E : Type) where
  | Ok (value : T)
  | Err (e : E)
  deriving DecidableEq, Repr

/-- Outcome of running Rust code that may panic: either a normal return of a
value, or a panic. -/
inductive Outcome (α : Type) where
  | returns (val : α)
  | panicked
  deriving DecidableEq, Repr

/-! ## The ulid collaborator (external `ulid` crate, wrapped by src/ulid.rs) -/

/-- `ulid::DecodeError` of the external ulid crate. -/
inductive DecodeError where
  | InvalidLength
  | InvalidChar
  deriving DecidableEq, Repr

/-- Crockford base32 alphabet of the external ulid crate:
`0123456789ABCDEFGHJKMNPQRSTVWXYZ` (no I, L, O, U). -/
def ULID_CHARS : List Char :=
  ['0', '1', '2', '3', '4', '5', '6', '7', '8', '9',
   'A', 'B', 'C', 'D', 'E', 'F', 'G', 'H', 'J', 'K', 'M', 'N',
   'P', 'Q', 'R', 'S', 'T', 'V', 'W', 'X', 'Y', 'Z']

/-- Symbol value of one character under the ulid crate's decode table:
case-insensitive Crockford base32, `none` for every byte outside the table
(in particular for every non-ASCII character, whose UTF-8 bytes are all
≥ 0x80 and hence absent from the byte-indexed table). -/
def crockfordValue (c : Char) : Option Nat :=
  if '0' ≤ c ∧ c ≤ '9' then some (c.toNat - 48)
  else
    match c.toUpper with
    | 'A' => some 10
    | 'B' => some 11
    | 'C' => some 12
    | 'D' => some 13
    | 'E' => some 14
    | 'F' => some 15
    | 'G' => some 16
    | 'H' => some 17
    | 'J' => some 18
    | 'K' => some 19
    | 'M' => some 20
    | 'N' => some 21
    | 'P' => some 22
    | 'Q' => some 23
    | 'R' => some 24
    | 'S' => some 25
    | 'T' => some 26
    | 'V' => some 27
    | 'W' => some 28
    | 'X' => some 29
    | 'Y' => some 30
    | 'Z' => some 31
    | _ => none

/-- Looks up every character of the candidate suffix; `none` as soon as one
character is outside the decode table (the ulid crate stops at the first
invalid byte; the result is the same). -/
def lookupAll : List Char → Option (List Nat)
  | [] => some []
  | c :: cs =>
    match crockfordValue c, lookupAll cs with
    | some d, some ds => some (d :: ds)
    | _, _ => none

/-- One step of the ulid crate's decode loop on a `u128` accumulator:
`value = (value << 5) | digit`, wrapping at 128 bits. -/
def decodeStep (a d : Nat) : Nat := (a * 32 + d) % 2 ^ 128

/-- The ulid crate's base32 decode: a 26-byte input over the (case-insensitive)
Crockford alphabet yields the 128-bit value; wrong byte length gives
`InvalidLength`, an out-of-alphabet byte gives `InvalidChar`. -/
def ulidDecode (s : List Char) : Result Nat DecodeError :=
  if utf8Len s ≠ 26 then .Err .InvalidLength
  else
    match lookupAll s with
    | none => .Err .InvalidChar
    | some ds => .Ok (ds.foldl decodeStep 0)

/-- Big-endian base-32 digits of `v`, `n` of them (most significant first). -/
def natDigits : Nat → Nat → List Nat
  | 0, _ => []
  | n + 1, v => (v / 32 ^ n) % 32 :: natDigits n v

/-- Encoding character for a 5-bit digit. -/
def encodeChar (d : Nat) : Char := ULID_CHARS.getD d '0'

/-- The ulid crate's canonical text encoding: 26 characters, most significant
5-bit group first, over `ULID_CHARS`. -/
def ulidEncode (v : Nat) : List Char := (natDigits 26 v).map encodeChar

/-- src/ulid.rs: newtype wrapper around the ulid crate's 128-bit `Ulid`
value. -/
structure Ulid where
  value : Nat
  deriving DecidableEq, Repr

/-- Models `Ulid::new()` (src/ulid.rs): the freshly generated 128-bit value is
supplied as a parameter, since it is produced from the clock and entropy,
which are external to the code; the wrapper stores it as a `u128`. -/
def Ulid.ofGen (gen : Nat) : Ulid := ⟨gen % 2 ^ 128⟩

/-- `FromStr for Ulid` (src/ulid.rs): delegates to the ulid crate's decode. -/
def Ulid.from_str (s : List Char) : Result Ulid DecodeError :=
  match ulidDecode s with
  | .Ok v => .Ok ⟨v⟩
  | .Err e => .Err e

/-- `Display` of the wrapped ulid (reached through `Deref` in
`ResourceID::fmt`): the 26-character canonical encoding. -/
def Ulid.render (u : Ulid) : List Char := ulidEncode u.value

/-! ## ResourceID (src/lib.rs) -/

/-- `ResourceIDError` (src/lib.rs). -/
inductive ResourceIDError where
  | UnableToDecodeUlid (inner : DecodeError)
  | InvalidResourceType (value : List Char)
  | InvalidLength (value : List Char)
  deriving DecidableEq, Repr

/-- `ResourceID` (src/lib.rs): a resource tag string and a privately owned
`Ulid`. -/
structure ResourceID where
  resource : List Char
  ulid : Ulid
  deriving DecidableEq, Repr

/-- `ResourceID::validate_resource` (src/lib.rs): the value fails validation
when its byte length (Rust `String::len`) is not 4. -/
def ResourceID.validate_resource (resource : List Char) : Result Unit ResourceIDError :=
  if utf8Len resource ≠ 4 then .Err (.InvalidResourceType resource)
  else .Ok ()

/-- `ResourceID::new` (src/lib.rs): generates a fresh ulid (its 128-bit value
supplied here as `gen`), uppercases the input, validates the uppercased value,
and composes the identifier. -/
def ResourceID.new (gen : Nat) (resource : List Char) : Result ResourceID ResourceIDError :=
  let ulid := Ulid.ofGen gen
  let r := toUppercase resource
  match ResourceID.validate_resource r with
  | .Err e => .Err e
  | .Ok _ => .Ok ⟨r, ulid⟩

/-- `Display for ResourceID` (src/lib.rs): the tag followed by the
26-character ulid text. -/
def ResourceID.to_string (id : ResourceID) : List Char :=
  id.resource ++ id.ulid.render

/-- `FromStr for ResourceID` (src/lib.rs): length check (30 bytes), byte-split
at offset 4 (panics off a character boundary), tag re-validation, suffix
decode, and composition with the uppercased tag. -/
def ResourceID.from_str (s : List Char) : Outcome (Result ResourceID ResourceIDError) :=
  if utf8Len s ≠ 30 then .returns (.Err (.InvalidLength s))
  else
    match byteSplit 4 s with
    | none => .panicked
    | some (resource_str, ulid_str) =>
      match ResourceID.validate_resource resource_str with
      | .Err e => .returns (.Err e)
      | .Ok _ =>
        match Ulid.from_str ulid_str with
        | .Err e => .returns (.Err (.UnableToDecodeUlid e))
        | .Ok ulid => .returns (.Ok ⟨toUppercase resource_str, ulid⟩)

/-! ## Serde codec (src/lib.rs, `Serialize`/`Deserialize for ResourceID`) -/

/-- A serde deserialization error produced by `serde::de::Error::custom`,
carrying the description (`Display` rendering) of the original parse failure;
the description is modelled by the error value that determines it. -/
inductive SerdeError where
  | custom (source : ResourceIDError)
  deriving DecidableEq, Repr

/-- `Serialize for ResourceID` (src/lib.rs): emits the `Display` text as a
bare string. -/
def ResourceID.serialize (id : ResourceID) : List Char :=
  id.to_string

/-- `Deserialize for ResourceID` (src/lib.rs): reads a bare string and runs
`from_str`, converting a parse failure into a custom deserialization error
carrying the original failure's description. -/
def ResourceID.deserialize (s : List Char) : Outcome (Result ResourceID SerdeError) :=
  match ResourceID.from_str s with
  | .returns (.Ok id) => .returns (.Ok id)
  | .returns (.Err e) => .returns (.Err (.custom e))
  | .panicked => .panicked

/-! ## Basic lemmas on byte lengths and uppercasing -/

lemma len_utf8_pos (c : Char) : 1 ≤ len_utf8 c := by
  unfold len_utf8
  split_ifs <;> omega

lemma utf8Len_append (a b : List Char) : utf8Len (a ++ b) = utf8Len a + utf8Len b := by
  induction a with
  | nil => simp [utf8Len]
  | cons c a ih =>
    show len_utf8 c + utf8Len (a ++ b) = len_utf8 c + utf8Len a + utf8Len b
    rw [ih]
    omega

lemma len_utf8_of_ascii {c : Char} (h : c.toNat < 128) : len_utf8 c = 1 := by
  unfold len_utf8
  rw [if_pos (by omega)]

lemma utf8Len_of_ascii {s : List Char} (h : ∀ c ∈ s, c.toNat < 128) :
    utf8Len s = s.length := by
  induction s with
  | nil => rfl
  | cons c s ih =>
    show len_utf8 c + utf8Len s = s.length + 1
    rw [len_utf8_of_ascii (h c (by simp)), ih (fun d hd => h d (by simp [hd]))]
    omega

lemma charToUppercase_of_not_mem {c : Char} (h : c ∉ upperTable.map Prod.fst) :
    charToUppercase c = [c] := by
  unfold charToUppercase
  have hfind : upperTable.find? (fun p => p.1 == c) = none := by
    rw [List.find?_eq_none]
    intro p hp hbeq
    exact h (List.mem_map.mpr ⟨p, hp, by simpa using hbeq⟩)
  rw [hfind]

lemma toUppercase_append (a b : List Char) :
    toUppercase (a ++ b) = toUppercase a ++ toUppercase b := by
  induction a with
  | nil => rfl
  | cons c a ih =>
    show charToUppercase c ++ toUppercase (a ++ b)
      = charToUppercase c ++ toUppercase a ++ toUppercase b
    rw [ih, List.append_assoc]

lemma toUppercase_charToUppercase (c : Char) :
    toUppercase (charToUppercase c) = charToUppercase c := by
  by_cases hc : c ∈ upperTable.map Prod.fst
  · exact (by decide :
      ∀ c ∈ upperTable.map Prod.fst, toUppercase (charToUppercase c) = charToUppercase c) c hc
  · rw [charToUppercase_of_not_mem hc]
    show charToUppercase c ++ [] = [c]
    rw [charToUppercase_of_not_mem hc]
    simp

lemma toUppercase_idem (s : List Char) : toUppercase (toUppercase s) = toUppercase s := by
  induction s with
  | nil => rfl
  | cons c s ih =>
    show toUppercase (charToUppercase c ++ toUppercase s) = charToUppercase c ++ toUppercase s
    rw [toUppercase_append, toUppercase_charToUppercase, ih]

lemma charToUppercase_of_ascii {c : Char} (h : c.toNat < 128) :
    (charToUppercase c).length = 1 ∧ ∀ d ∈ charToUppercase c, d.toNat < 128 := by
  by_cases hc : c ∈ upperTable.map Prod.fst
  · exact (by decide : ∀ c ∈ upperTable.map Prod.fst, c.toNat < 128 →
      (charToUppercase c).length = 1 ∧ ∀ d ∈ charToUppercase c, d.toNat < 128) c hc h
  · rw [charToUppercase_of_not_mem hc]
    refine ⟨rfl, ?_⟩
    intro d hd
    rw [List.mem_singleton] at hd
    exact hd ▸ h

lemma toUppercase_of_ascii {t : List Char} (h : ∀ c ∈ t, c.toNat < 128) :
    (toUppercase t).length = t.length ∧ ∀ d ∈ toUppercase t, d.toNat < 128 := by
  induction t with
  | nil => exact ⟨rfl, by intro d hd; simp [toUppercase] at hd⟩
  | cons c t ih =>
    obtain ⟨h1, h2⟩ := charToUppercase_of_ascii (h c (by simp))
    obtain ⟨h3, h4⟩ := ih (fun d hd => h d (by simp [hd]))
    constructor
    · show (charToUppercase c ++ toUppercase t).length = t.length + 1
      rw [List.length_append, h1, h3]
      omega
    · intro d hd
      rcases List.mem_append.mp hd with hd | hd
      · exact h2 d hd
      · exact h4 d hd

lemma byteSplit_append (pre post : List Char) :
    byteSplit (utf8Len pre) (pre ++ post) = some (pre, post) := by
  induction pre with
  | nil => simp [utf8Len, byteSplit]
  | cons c pre ih =>
    have hc := len_utf8_pos c
    show byteSplit (len_utf8 c + utf8Len pre) (c :: (pre ++ post)) = _
    obtain ⟨m, hm⟩ : ∃ m, len_utf8 c + utf8Len pre = m + 1 :=
      ⟨len_utf8 c + utf8Len pre - 1, by omega⟩
    rw [hm, byteSplit, if_pos (by omega)]
    have hrest : m + 1 - len_utf8 c = utf8Len pre := by omega
    rw [hrest, ih]

/-! ## Lemmas on the ulid base32 codec -/

lemma natDigits_length (n v : Nat) : (natDigits n v).length = n := by
  induction n with
  | zero => rfl
  | succ n ih => simp [natDigits, ih]

lemma natDigits_lt (n v : Nat) : ∀ d ∈ natDigits n v, d < 32 := by
  induction n with
  | zero => intro d hd; simp [natDigits] at hd
  | succ n ih =>
    intro d hd
    rcases List.mem_cons.mp hd with rfl | hd
    · exact Nat.mod_lt _ (by omega)
    · exact ih d hd

lemma crockfordValue_encodeChar : ∀ d, d < 32 → crockfordValue (encodeChar d) = some d := by
  decide

lemma len_utf8_encodeChar (d : Nat) : len_utf8 (encodeChar d) = 1 := by
  by_cases hd : d < 32
  · exact (by decide : ∀ d, d < 32 → len_utf8 (encodeChar d) = 1) d hd
  · unfold encodeChar
    rw [List.getD_eq_default _ _ (by simp [ULID_CHARS]; omega)]
    decide

lemma utf8Len_ulidEncode (v : Nat) : utf8Len (ulidEncode v) = 26 := by
  unfold ulidEncode
  have : ∀ l : List Nat, utf8Len (l.map encodeChar) = l.length := by
    intro l
    induction l with
    | nil => rfl
    | cons d l ih =>
      show len_utf8 (encodeChar d) + utf8Len (l.map encodeChar) = l.length + 1
      rw [len_utf8_encodeChar, ih]
      omega
  rw [this, natDigits_length]

lemma lookupAll_map_encodeChar {l : List Nat} (h : ∀ d ∈ l, d < 32) :
    lookupAll (l.map encodeChar) = some l := by
  induction l with
  | nil => rfl
  | cons d l ih =>
    show lookupAll (encodeChar d :: l.map encodeChar) = some (d :: l)
    rw [lookupAll, crockfordValue_encodeChar d (h d (by simp)),
      ih (fun e he => h e (by simp [he]))]

lemma lookupAll_eq_none {l : List Char} {c : Char} (hc : c ∈ l)
    (hv : crockfordValue c = none) : lookupAll l = none := by
  induction l with
  | nil => simp at hc
  | cons a l ih =>
    rcases List.mem_cons.mp hc with rfl | hc
    · rw [lookupAll, hv]
    · rw [lookupAll, ih hc]
      cases crockfordValue a <;> rfl

lemma foldl_decodeStep_lt {l : List Nat} {a : Nat} (ha : a < 2 ^ 128) :
    l.foldl decodeStep a < 2 ^ 128 := by
  induction l generalizing a with
  | nil => exact ha
  | cons d l ih =>
    rw [List.foldl_cons]
    exact ih (Nat.mod_lt _ (by positivity))

lemma foldl_decodeStep_natDigits {v : Nat} (hv : v < 2 ^ 128) (n : Nat) :
    (natDigits n v).foldl decodeStep (v / 32 ^ n) = v := by
  induction n with
  | zero => simp [natDigits]
  | succ n ih =>
    rw [natDigits, List.foldl_cons]
    have hstep : decodeStep (v / 32 ^ (n + 1)) (v / 32 ^ n % 32) = v / 32 ^ n := by
      unfold decodeStep
      have h1 : v / 32 ^ (n + 1) = v / 32 ^ n / 32 := by
        rw [Nat.div_div_eq_div_mul, ← pow_succ]
      have h2 := Nat.div_add_mod (v / 32 ^ n) 32
      have h3 : v / 32 ^ n < 2 ^ 128 := lt_of_le_of_lt (Nat.div_le_self _ _) hv
      rw [h1]
      have h4 : v / 32 ^ n / 32 * 32 + v / 32 ^ n % 32 = v / 32 ^ n := by omega
      rw [h4]
      exact Nat.mod_eq_of_lt h3
    rw [hstep, ih]

lemma ulidDecode_ulidEncode {v : Nat} (hv : v < 2 ^ 128) :
    ulidDecode (ulidEncode v) = .Ok v := by
  unfold ulidDecode
  rw [if_neg (by simp [utf8Len_ulidEncode])]
  rw [show lookupAll (ulidEncode v) = some (natDigits 26 v) from
    lookupAll_map_encodeChar (natDigits_lt 26 v)]
  have hdivsmall : v / 32 ^ 26 = 0 := by
    apply Nat.div_eq_of_lt
    calc v < 2 ^ 128 := hv
    _ < 32 ^ 26 := by norm_num
  have hfold := foldl_decodeStep_natDigits hv 26
  rw [hdivsmall] at hfold
  show Result.Ok ((natDigits 26 v).foldl decodeStep 0) = Result.Ok v
  rw [hfold]

lemma ulidDecode_Ok_lt {s : List Char} {v : Nat} (h : ulidDecode s = .Ok v) :
    v < 2 ^ 128 := by
  unfold ulidDecode at h
  split at h
  · cases h
  · split at h
    · cases h
    · cases h
      exact foldl_decodeStep_lt (by positivity)

lemma ulidDecode_Ok_utf8Len {s : List Char} {v : Nat} (h : ulidDecode s = .Ok v) :
    utf8Len s = 26 := by
  unfold ulidDecode at h
  split at h
  · cases h
  · omega

/-! ## Round-trip core and inversion lemmas -/

lemma from_str_to_string {id : ResourceID} (h4 : utf8Len id.resource = 4)
    (hfix : toUppercase id.resource = id.resource) (hv : id.ulid.value < 2 ^ 128) :
    ResourceID.from_str id.to_string = .returns (.Ok id) := by
  show ResourceID.from_str (id.resource ++ ulidEncode id.ulid.value) = _
  have hlen : utf8Len (id.resource ++ ulidEncode id.ulid.value) = 30 := by
    rw [utf8Len_append, h4, utf8Len_ulidEncode]
  have hsplit : byteSplit 4 (id.resource ++ ulidEncode id.ulid.value)
      = some (id.resource, ulidEncode id.ulid.value) := by
    have := byteSplit_append id.resource (ulidEncode id.ulid.value)
    rwa [h4] at this
  unfold ResourceID.from_str
  rw [if_neg (by omega)]
  simp only [hsplit]
  unfold ResourceID.validate_resource Ulid.from_str
  rw [if_neg (by omega)]
  simp only [ulidDecode_ulidEncode hv]
  rw [hfix]

lemma new_Ok_inv {gen : Nat} {t : List Char} {id : ResourceID}
    (h : ResourceID.new gen t = .Ok id) :
    id.resource = toUppercase t ∧ utf8Len id.resource = 4 ∧ id.ulid.value < 2 ^ 128 := by
  simp only [ResourceID.new, ResourceID.validate_resource] at h
  by_cases hc : utf8Len (toUppercase t) ≠ 4
  · rw [if_pos hc] at h
    simp at h
  · rw [if_neg hc] at h
    simp only [Result.Ok.injEq] at h
    subst h
    refine ⟨rfl, ?_, ?_⟩
    · show utf8Len (toUppercase t) = 4
      omega
    · show gen % 2 ^ 128 < 2 ^ 128
      exact Nat.mod_lt _ (by positivity)

lemma from_str_Ok_inv {s : List Char} {id : ResourceID}
    (h : ResourceID.from_str s = .returns (.Ok id)) :
    toUppercase id.resource = id.resource ∧ id.ulid.value < 2 ^ 128 := by
  unfold ResourceID.from_str at h
  by_cases hlen : utf8Len s ≠ 30
  · rw [if_pos hlen] at h
    simp at h
  rw [if_neg hlen] at h
  cases hsplit : byteSplit 4 s with
  | none =>
    rw [hsplit] at h
    simp at h
  | some pair =>
    obtain ⟨resource_str, ulid_str⟩ := pair
    simp only [hsplit] at h
    unfold ResourceID.validate_resource Ulid.from_str at h
    by_cases hval : utf8Len resource_str ≠ 4
    · rw [if_pos hval] at h
      simp at h
    rw [if_neg hval] at h
    cases hdec : ulidDecode ulid_str with
    | Err e =>
      simp only [hdec] at h
      simp at h
    | Ok v =>
      simp only [hdec] at h
      simp only [Outcome.returns.injEq, Result.Ok.injEq] at h
      subst h
      exact ⟨toUppercase_idem resource_str, ulidDecode_Ok_lt hdec⟩

lemma ulidEncode_length (v : Nat) : (ulidEncode v).length = 26 := by
  unfold ulidEncode
  rw [List.length_map, natDigits_length]

/-! ## Claims -/

/-- C1 (amended): parsing the rendered text round-trips for every identifier
produced by `ResourceID::new`, and for every identifier produced by a prior
successful `ResourceID::from_str` whose stored `resource` field still has
UTF-8 byte length 4.  (The as-stated claim fails for parse-produced
identifiers whose uppercased tag shrinks below 4 bytes; see the
counterexample.) -/
theorem c1_parse_render_round_trip (id : ResourceID)
    (h : (∃ gen t, ResourceID.new gen t = .Ok id) ∨
         (∃ s, ResourceID.from_str s = .returns (.Ok id) ∧ utf8Len id.resource = 4)) :
    ResourceID.from_str id.to_string = .returns (.Ok id) := by
  rcases h with ⟨gen, t, hnew⟩ | ⟨s, hparse, h4⟩
  · obtain ⟨hres, h4, hv⟩ := new_Ok_inv hnew
    exact from_str_to_string h4 (by rw [hres, toUppercase_idem]) hv
  · obtain ⟨hfix, hv⟩ := from_str_Ok_inv hparse
    exact from_str_to_string h4 hfix hv

/-- C1 witness: the round-trip theorem applied to the concrete identifier
`USER` + all-zero suffix, as produced by `ResourceID::new(\"USER\")` with
generated value 0. -/
theorem c1_parse_render_round_trip_witness :
    ResourceID.from_str (ResourceID.to_string ⟨['U', 'S', 'E', 'R'], ⟨0⟩⟩)
      = .returns (.Ok ⟨['U', 'S', 'E', 'R'], ⟨0⟩⟩) :=
  c1_parse_render_round_trip ⟨['U', 'S', 'E', 'R'], ⟨0⟩⟩
    (Or.inl ⟨0, ['U', 'S', 'E', 'R'], by decide⟩)

/-- C1 counterexample to the claim as stated: the 30-byte string
`"ıı" + 26×'0'` (U+0131 ı is 2 UTF-8 bytes) parses successfully to an
identifier with resource `"II"` (2 bytes, since `to_uppercase` maps ı to the
1-byte I), but parsing that identifier's 28-byte rendered text fails with
`InvalidLength` instead of returning the identifier. -/
theorem c1_round_trip_counterexample :
    ResourceID.from_str (['ı', 'ı'] ++ List.replicate 26 '0')
      = .returns (.Ok ⟨['I', 'I'], ⟨0⟩⟩) ∧
    ResourceID.from_str (ResourceID.to_string ⟨['I', 'I'], ⟨0⟩⟩)
      = .returns (.Err (.InvalidLength (['I', 'I'] ++ List.replicate 26 '0'))) := by
  constructor <;> decide

/-- C2 counterexample to the claim as stated: `"AAAß"` is a 4-character tag
input, but `ResourceID::new` rejects it with `InvalidResourceType("AAASS")`
because the validated value is the uppercased string (ß uppercases to `SS`,
5 bytes). -/
theorem c2_construct_counterexample :
    (['A', 'A', 'A', 'ß'] : List Char).length = 4 ∧
    ResourceID.new 0 ['A', 'A', 'A', 'ß']
      = .Err (.InvalidResourceType ['A', 'A', 'A', 'S', 'S']) := by
  constructor <;> decide

/-- C2 (amended): for every 4-character ASCII tag input `t` (any case),
construction succeeds, the stored resource is `uppercase(t)`, the rendered
text has length exactly 30, and its first 4 characters are `uppercase(t)`.
(The as-stated claim fails for non-ASCII 4-character inputs whose uppercased
form is not 4 bytes; see the counterexample.) -/
theorem c2_construct_ascii (gen : Nat) (t : List Char) (hlen : t.length = 4)
    (hascii : ∀ c ∈ t, c.toNat < 128) :
    ResourceID.new gen t = .Ok ⟨toUppercase t, Ulid.ofGen gen⟩ ∧
    (ResourceID.to_string ⟨toUppercase t, Ulid.ofGen gen⟩).length = 30 ∧
    (ResourceID.to_string ⟨toUppercase t, Ulid.ofGen gen⟩).take 4 = toUppercase t := by
  obtain ⟨hul, hua⟩ := toUppercase_of_ascii hascii
  have h4 : utf8Len (toUppercase t) = 4 := by rw [utf8Len_of_ascii hua, hul, hlen]
  have hlen4 : (toUppercase t).length = 4 := by rw [hul, hlen]
  refine ⟨?_, ?_, ?_⟩
  · simp only [ResourceID.new, ResourceID.validate_resource]
    rw [if_neg (by omega)]
  · show (toUppercase t ++ ulidEncode (Ulid.ofGen gen).value).length = 30
    rw [List.length_append, hlen4, ulidEncode_length]
  · show (toUppercase t ++ ulidEncode (Ulid.ofGen gen).value).take 4 = toUppercase t
    rw [← hlen4]
    exact List.take_left' rfl

/-- C2 witness: the amended theorem applied to the spec's concrete scenario
`Construct("user")` (generated value 5). -/
theorem c2_construct_ascii_witness :
    ResourceID.new 5 ['u', 's', 'e', 'r']
      = .Ok ⟨toUppercase ['u', 's', 'e', 'r'], Ulid.ofGen 5⟩ ∧
    (ResourceID.to_string ⟨toUppercase ['u', 's', 'e', 'r'], Ulid.ofGen 5⟩).length = 30 ∧
    (ResourceID.to_string ⟨toUppercase ['u', 's', 'e', 'r'], Ulid.ofGen 5⟩).take 4
      = toUppercase ['u', 's', 'e', 'r'] :=
  c2_construct_ascii 5 ['u', 's', 'e', 'r'] (by decide) (by decide)

/-- C3 counterexample to the claim as stated: (a) `Construct("foo")` fails,
but the error carries the uppercased value `"FOO"`, not the supplied value
`"foo"` itself; (b) under the character-count reading of "length", the
3-character input `"AAé"` is accepted (its uppercased form occupies 4 bytes);
(c) under the byte-count reading, the 5-byte input `"ıAAA"` is accepted (its
uppercased form `"IAAA"` occupies 4 bytes). -/
theorem c3_construct_error_counterexample :
    (ResourceID.new 0 ['f', 'o', 'o'] = .Err (.InvalidResourceType ['F', 'O', 'O']) ∧
      (['F', 'O', 'O'] : List Char) ≠ ['f', 'o', 'o']) ∧
    ((['A', 'A', 'é'] : List Char).length ≠ 4 ∧
      ResourceID.new 0 ['A', 'A', 'é'] = .Ok ⟨['A', 'A', 'É'], ⟨0⟩⟩) ∧
    (utf8Len ['ı', 'A', 'A', 'A'] ≠ 4 ∧
      ResourceID.new 0 ['ı', 'A', 'A', 'A'] = .Ok ⟨['I', 'A', 'A', 'A'], ⟨0⟩⟩) := by
  exact ⟨⟨by decide, by decide⟩, ⟨by decide, by decide⟩, ⟨by decide, by decide⟩⟩

/-- C3 (amended): for every input `t` whose uppercased form has UTF-8 byte
length different from 4, `ResourceID::new` fails with
`InvalidResourceType(uppercase(t))` — the error carries the uppercased
value, and the length validated is the byte length of the uppercased
string. -/
theorem c3_construct_invalid_resource (gen : Nat) (t : List Char)
    (h : utf8Len (toUppercase t) ≠ 4) :
    ResourceID.new gen t = .Err (.InvalidResourceType (toUppercase t)) := by
  simp only [ResourceID.new, ResourceID.validate_resource]
  rw [if_pos h]

/-- C3 witness: the amended theorem applied to the concrete input
`"foobar"`. -/
theorem c3_construct_invalid_resource_witness :
    ResourceID.new 0 ['f', 'o', 'o', 'b', 'a', 'r']
      = .Err (.InvalidResourceType (toUppercase ['f', 'o', 'o', 'b', 'a', 'r'])) :=
  c3_construct_invalid_resource 0 ['f', 'o', 'o', 'b', 'a', 'r'] (by decide)

/-- C4: for every string whose length (Rust `str::len`, i.e. UTF-8 byte
length) is not 30, `ResourceID::from_str` fails immediately with
`InvalidLength` carrying the supplied string itself, performing no other
validation. -/
theorem c4_parse_invalid_length (s : List Char) (h : utf8Len s ≠ 30) :
    ResourceID.from_str s = .returns (.Err (.InvalidLength s)) := by
  unfold ResourceID.from_str
  rw [if_pos h]

/-- C4 witness: the spec's concrete scenario `Parse("USER1234")`
(8 characters). -/
theorem c4_parse_invalid_length_witness :
    ResourceID.from_str ['U', 'S', 'E', 'R', '1', '2', '3', '4']
      = .returns (.Err (.InvalidLength ['U', 'S', 'E', 'R', '1', '2', '3', '4'])) :=
  c4_parse_invalid_length ['U', 'S', 'E', 'R', '1', '2', '3', '4'] (by decide)

/-- C5 counterexample to the claim as stated: the 30-byte input
`"ABCé" + 25×'A'` has é (not in the suffix alphabet) among its last 26
characters, yet `from_str` does not fail with `UnableToDecodeUlid` — it
panics, because byte offset 4 falls inside the 2-byte character é. -/
theorem c5_parse_invalid_suffix_counterexample :
    utf8Len (['A', 'B', 'C', 'é'] ++ List.replicate 25 'A') = 30 ∧
    'é' ∈ (['A', 'B', 'C', 'é'] ++ List.replicate 25 'A').drop
        ((['A', 'B', 'C', 'é'] ++ List.replicate 25 'A').length - 26) ∧
    crockfordValue 'é' = none ∧
    ResourceID.from_str (['A', 'B', 'C', 'é'] ++ List.replicate 25 'A') = .panicked := by
  exact ⟨by decide, by decide, by decide, by decide⟩

/-- C5 (amended): for every ASCII string of length exactly 30 whose last 26
characters contain a character outside the (case-insensitive) suffix base-32
alphabet, `ResourceID::from_str` fails with `UnableToDecodeUlid` wrapping the
suffix layer's `InvalidChar` decode error. -/
theorem c5_parse_invalid_suffix (s : List Char) (hascii : ∀ c ∈ s, c.toNat < 128)
    (hlen : s.length = 30)
    (hbad : ∃ c ∈ s.drop 4, crockfordValue c = none) :
    ResourceID.from_str s = .returns (.Err (.UnableToDecodeUlid .InvalidChar)) := by
  obtain ⟨c, hc, hv⟩ := hbad
  have hu : utf8Len s = 30 := by rw [utf8Len_of_ascii hascii, hlen]
  have htake : utf8Len (s.take 4) = 4 := by
    rw [utf8Len_of_ascii (fun d hd => hascii d (List.take_subset 4 s hd)),
      List.length_take]
    omega
  have hsplit : byteSplit 4 s = some (s.take 4, s.drop 4) := by
    have := byteSplit_append (s.take 4) (s.drop 4)
    rwa [htake, List.take_append_drop] at this
  have hdrop : utf8Len (s.drop 4) = 26 := by
    rw [utf8Len_of_ascii (fun d hd => hascii d (List.drop_subset 4 s hd)),
      List.length_drop]
    omega
  have hdec : ulidDecode (s.drop 4) = .Err .InvalidChar := by
    unfold ulidDecode
    rw [if_neg (by omega), lookupAll_eq_none hc hv]
  unfold ResourceID.from_str Ulid.from_str
  rw [if_neg (by omega)]
  simp only [hsplit]
  unfold ResourceID.validate_resource
  rw [if_neg (by omega)]
  simp only [hdec]

/-- C5 witness: the amended theorem applied to `"FOOB" + 26×'U'` (U is
excluded from the Crockford alphabet). -/
theorem c5_parse_invalid_suffix_witness :
    ResourceID.from_str (['F', 'O', 'O', 'B'] ++ List.replicate 26 'U')
      = .returns (.Err (.UnableToDecodeUlid .InvalidChar)) :=
  c5_parse_invalid_suffix (['F', 'O', 'O', 'B'] ++ List.replicate 26 'U')
    (by decide) (by decide) (by decide)

/-- C6: tag-splitting is purely positional and permissive — for every string
that is a 4-byte prefix followed by a validly decoding suffix,
`ResourceID::from_str` succeeds, takes exactly that prefix as the tag
regardless of its content (never returning `InvalidResourceType`), and
stores it uppercased. -/
theorem c6_positional_tag_split (pre post : List Char) (v : Nat)
    (h4 : utf8Len pre = 4) (hdec : ulidDecode post = .Ok v) :
    ResourceID.from_str (pre ++ post) = .returns (.Ok ⟨toUppercase pre, ⟨v⟩⟩) := by
  have h26 := ulidDecode_Ok_utf8Len hdec
  have hlen : utf8Len (pre ++ post) = 30 := by
    rw [utf8Len_append]
    omega
  have hsplit : byteSplit 4 (pre ++ post) = some (pre, post) := by
    have := byteSplit_append pre post
    rwa [h4] at this
  unfold ResourceID.from_str Ulid.from_str
  rw [if_neg (by omega)]
  simp only [hsplit]
  unfold ResourceID.validate_resource
  rw [if_neg (by omega)]
  simp only [hdec]

/-- C6 witness: the spec's concrete scenario — a tag region `"FOOB"` taken
purely positionally from `"FOOB" + 26×'0'`. -/
theorem c6_positional_tag_split_witness :
    ResourceID.from_str (['F', 'O', 'O', 'B'] ++ List.replicate 26 '0')
      = .returns (.Ok ⟨toUppercase ['F', 'O', 'O', 'B'], ⟨0⟩⟩) :=
  c6_positional_tag_split ['F', 'O', 'O', 'B'] (List.replicate 26 '0') 0
    (by decide) (by decide)

/-- C7: the spec requires Construct and Parse to always return typed results
and never panic, but `from_str` byte-slices `&s[..4]`, which panics on the
30-byte input `"ABCé" + 25×'A'` whose byte offset 4 falls inside the 2-byte
character é — the code violates the claim. -/
theorem c7_parse_panics_on_non_boundary :
    utf8Len (['A', 'B', 'C', 'é'] ++ List.replicate 25 'A') = 30 ∧
    ResourceID.from_str (['A', 'B', 'C', 'é'] ++ List.replicate 25 'A') = .panicked := by
  constructor <;> decide

/-- C9 counterexample to the claim as stated: the identifier obtained by
parsing `"ıı" + encode(1)` serializes to a 28-character string (not 30), and
deserializing its own serialization fails with a custom error instead of
yielding the identifier back. -/
theorem c9_serde_counterexample :
    ResourceID.from_str (['ı', 'ı'] ++ (List.replicate 25 '0' ++ ['1']))
      = .returns (.Ok ⟨['I', 'I'], ⟨1⟩⟩) ∧
    (ResourceID.serialize ⟨['I', 'I'], ⟨1⟩⟩).length = 28 ∧
    ResourceID.deserialize (ResourceID.serialize ⟨['I', 'I'], ⟨1⟩⟩)
      = .returns (.Err (.custom
          (.InvalidLength (['I', 'I'] ++ (List.replicate 25 '0' ++ ['1']))))) := by
  exact ⟨by decide, by decide, by decide⟩

/-- C9 (amended): serialization emits exactly the `Display` text as a bare
string; for every identifier produced by `ResourceID::new` (or by a prior
successful parse whose stored resource still has byte length 4) that text is
exactly 30 characters and deserializing it yields a structurally equal
identifier; and every parse failure surfaces as a custom deserialization
error carrying the original failure's description. -/
theorem c9_serde_round_trip (id : ResourceID)
    (h : (∃ gen t, ResourceID.new gen t = .Ok id) ∨
         (∃ s, ResourceID.from_str s = .returns (.Ok id) ∧ utf8Len id.resource = 4)) :
    ResourceID.serialize id = ResourceID.to_string id ∧
    utf8Len (ResourceID.serialize id) = 30 ∧
    ResourceID.deserialize (ResourceID.serialize id) = .returns (.Ok id) ∧
    ∀ (s : List Char) (e : ResourceIDError),
      ResourceID.from_str s = .returns (.Err e) →
      ResourceID.deserialize s = .returns (.Err (.custom e)) := by
  have hprops : utf8Len id.resource = 4 ∧ toUppercase id.resource = id.resource ∧
      id.ulid.value < 2 ^ 128 := by
    rcases h with ⟨gen, t, hnew⟩ | ⟨s, hparse, h4⟩
    · obtain ⟨hres, h4, hv⟩ := new_Ok_inv hnew
      exact ⟨h4, by rw [hres, toUppercase_idem], hv⟩
    · obtain ⟨hfix, hv⟩ := from_str_Ok_inv hparse
      exact ⟨h4, hfix, hv⟩
  obtain ⟨h4, hfix, hv⟩ := hprops
  refine ⟨rfl, ?_, ?_, ?_⟩
  · show utf8Len (id.resource ++ ulidEncode id.ulid.value) = 30
    rw [utf8Len_append, h4, utf8Len_ulidEncode]
  · show ResourceID.deserialize id.to_string = _
    unfold ResourceID.deserialize
    rw [from_str_to_string h4 hfix hv]
  · intro s e hs
    unfold ResourceID.deserialize
    rw [hs]

/-- C9 witness: the amended theorem applied to the identifier produced by
`ResourceID::new("USER")` with generated value 3. -/
theorem c9_serde_round_trip_witness :
    ResourceID.serialize ⟨['U', 'S', 'E', 'R'], ⟨3⟩⟩
      = ResourceID.to_string ⟨['U', 'S', 'E', 'R'], ⟨3⟩⟩ ∧
    utf8Len (ResourceID.serialize ⟨['U', 'S', 'E', 'R'], ⟨3⟩⟩) = 30 ∧
    ResourceID.deserialize (ResourceID.serialize ⟨['U', 'S', 'E', 'R'], ⟨3⟩⟩)
      = .returns (.Ok ⟨['U', 'S', 'E', 'R'], ⟨3⟩⟩) ∧
    ∀ (s : List Char) (e : ResourceIDError),
      ResourceID.from_str s = .returns (.Err e) →
      ResourceID.deserialize s = .returns (.Err (.custom e)) :=
  c9_serde_round_trip ⟨['U', 'S', 'E', 'R'], ⟨3⟩⟩
    (Or.inl ⟨3, ['U', 'S', 'E', 'R'], by decide⟩)

/-- C10: `ResourceID::new` validates the UTF-8 byte length of the uppercased
input, not the character count of the original input — construction succeeds
exactly when the uppercased form occupies 4 bytes; the 3-character input
`"AAé"` is accepted (rendering to 29 characters), while the 4-character input
`"ßAAA"` is rejected (ß uppercases to the two-byte `"SS"`). -/
theorem c10_byte_length_validation :
    (∀ (gen : Nat) (t : List Char),
      (∃ id, ResourceID.new gen t = .Ok id) ↔ utf8Len (toUppercase t) = 4) ∧
    ((['A', 'A', 'é'] : List Char).length = 3 ∧
      ResourceID.new 0 ['A', 'A', 'é'] = .Ok ⟨['A', 'A', 'É'], ⟨0⟩⟩ ∧
      (ResourceID.to_string ⟨['A', 'A', 'É'], ⟨0⟩⟩).length = 29) ∧
    ((['ß', 'A', 'A', 'A'] : List Char).length = 4 ∧
      ResourceID.new 0 ['ß', 'A', 'A', 'A']
        = .Err (.InvalidResourceType ['S', 'S', 'A', 'A', 'A'])) := by
  refine ⟨?_, ⟨by decide, by decide, by decide⟩, ⟨by decide, by decide⟩⟩
  intro gen t
  constructor
  · rintro ⟨id, hid⟩
    obtain ⟨hres, h4, _⟩ := new_Ok_inv hid
    rw [← hres]
    exact h4
  · intro h4
    refine ⟨⟨toUppercase t, Ulid.ofGen gen⟩, ?_⟩
    simp only [ResourceID.new, ResourceID.validate_resource]
    rw [if_neg (by omega)]
